import Mathlib

set_option maxHeartbeats 1000000

/-!
Verification of the progress model of the lao-asr-thesis recording toolkit.

The definitions below are a shallow embedding of the two Python scripts:

* record_audio.py — catalog loading (load_sentences_from_csv), the recording
  store scan (get_recorded_sentence_ids_for_accent), worklist ordering
  (sorted with key int(x) if x.isdigit() else x), the shared-accent
  recording loop, and the final session summary.
* convert_csv_to_json.py — the CSV-to-JSON manifest converter.

Strings are modelled over their character lists; Python sets of strings are
Finset String; Python dicts (insertion ordered) are association lists; a
Python function that may raise is modelled with an explicit result type.
-/

namespace LaoAsr

/-- Python str.strip(): remove leading and trailing whitespace. -/
def pyStrip (s : String) : String :=
  String.mk (((s.data.dropWhile Char.isWhitespace).reverse.dropWhile Char.isWhitespace).reverse)

/-- Python str.isdigit() for ASCII strings: non-empty and every character a decimal digit. -/
def isDigitStr (s : String) : Bool :=
  !s.data.isEmpty && s.data.all Char.isDigit

/-- Python int() applied to a string of ASCII digits. -/
def strToNat (s : String) : Nat :=
  s.data.foldl (fun n c => n * 10 + (c.toNat - 48)) 0

/-! ## Filename extraction (record_audio.py, get_recorded_sentence_ids_for_accent) -/

/-- The reversed character list of the extension ".wav". -/
def wavRev : List Char := ['v', 'a', 'w', '.']

/-- filename.lower().endswith('.wav') (record_audio.py line 175). -/
def lowerEndsWithWav (filename : String) : Bool :=
  ((filename.data.map Char.toLower).reverse.take 4) == wavRev

/-- re.search of underscore, one or more digits, then ".wav", anchored at the end of
the filename, case-insensitive on the extension (record_audio.py line 178); returns
the digit group.  The search is modelled on the reversed character list: the match,
when it exists, is the maximal run of digits immediately before the extension,
which must be preceded by an underscore. -/
def wavSearch (filename : String) : Option String :=
  if ((filename.data.reverse.take 4).map Char.toLower) == wavRev then
    if ((filename.data.reverse.drop 4).takeWhile Char.isDigit).isEmpty then none
    else
      match (filename.data.reverse.drop 4).dropWhile Char.isDigit with
      | '_' :: _ =>
          some (String.mk ((filename.data.reverse.drop 4).takeWhile Char.isDigit).reverse)
      | _ => none
  else none

/-- The per-file extraction of record_audio.py lines 175-181: the extension check
followed by the trailing-pattern search. -/
def extract_sentence_id (filename : String) : Option String :=
  if lowerEndsWithWav filename then wavSearch filename else none

/-! ## Filesystem model and the recording store scan -/

/-- A directory entry: a plain file or a subdirectory with its own entries. -/
inductive FsEntry where
  | file (name : String)
  | dir (name : String) (children : List FsEntry)

/-- The name os.listdir reports for an entry. -/
def entryName : FsEntry → String
  | .file n => n
  | .dir n _ => n

/-- The inner loop of get_recorded_sentence_ids_for_accent (lines 173-181):
apply the per-file extraction to every name inside one speaker directory,
accumulating into the set of recorded ids. -/
def scanSpeakerDir (s : Finset String) (children : List FsEntry) : Finset String :=
  children.foldl (fun acc c =>
    match extract_sentence_id (entryName c) with
    | some id => insert id acc
    | none => acc) s

/-- get_recorded_sentence_ids_for_accent (record_audio.py lines 150-187).
The argument is none when the accent path is not a directory
(os.path.isdir fails, lines 161-163), otherwise the accent directory's
entries.  Every immediate subdirectory is scanned; non-directory entries
are skipped. -/
def get_recorded_sentence_ids_for_accent (accentDir : Option (List FsEntry)) : Finset String :=
  match accentDir with
  | none => ∅
  | some entries =>
    entries.foldl (fun acc e =>
      match e with
      | .file _ => acc
      | .dir _ children => scanSpeakerDir acc children) ∅

/-- The summary computation of record_audio.py lines 401-403:
remaining_for_accent = total_sentences - len(final_recorded_ids), where
final_recorded_ids is a fresh post-loop scan of the accent directory.
Python ints are modelled by Int since the difference can be negative. -/
def remaining_for_accent (total_sentences : Nat) (accentDir : Option (List FsEntry)) : Int :=
  (total_sentences : Int) - ((get_recorded_sentence_ids_for_accent accentDir).card : Int)

/-! ## Catalog loader (record_audio.py, load_sentences_from_csv) -/

/-- The row loop of load_sentences_from_csv (lines 91-109), with the ordered
dict modelled as an association list and the duplicate-warning counter made
explicit.  A row is a (sentence_id, transcription) pair as produced by
csv.DictReader; both fields are stripped; rows with an empty field are
skipped; a duplicate identifier is discarded with a warning. -/
def loadAux : List (String × String) → List (String × String) → Nat → List (String × String) × Nat
  | [], sentences, dups => (sentences, dups)
  | row :: rows, sentences, dups =>
    let sentence_id := pyStrip row.1
    let text := pyStrip row.2
    if sentence_id ≠ "" ∧ text ≠ "" then
      if sentences.any (fun e => e.1 == sentence_id) then
        loadAux rows sentences (dups + 1)
      else
        loadAux rows (sentences ++ [(sentence_id, text)]) dups
    else
      loadAux rows sentences dups

/-- load_sentences_from_csv (record_audio.py lines 68-125) restricted to its
row-processing loop: returns the catalog and the number of duplicate warnings. -/
def load_sentences_from_csv (rows : List (String × String)) : List (String × String) × Nat :=
  loadAux rows [] 0

/-- The valid rows of a CSV: both fields non-empty after stripping, kept in
row order with no deduplication.  Used to characterise both loaders. -/
def validRows (rows : List (String × String)) : List (String × String) :=
  rows.filterMap (fun row =>
    let sentence_id := pyStrip row.1
    let text := pyStrip row.2
    if sentence_id ≠ "" ∧ text ≠ "" then some (sentence_id, text) else none)

/-! ## Worklist ordering (record_audio.py line 249) -/

/-- The comparison key produced by the lambda x: int(x) if x.isdigit() else x. -/
inductive PyKey where
  | pint (n : Nat)
  | pstr (s : String)

/-- sortKey x models the key function applied to one identifier. -/
def sortKey (x : String) : PyKey :=
  if isDigitStr x then .pint (strToNat x) else .pstr x

/-- Python comparison of two keys: ints compare numerically, strings compare
lexicographically by code point, and comparing an int with a str raises
TypeError, modelled as none. -/
def pyKeyLt : PyKey → PyKey → Option Bool
  | .pint a, .pint b => some (decide (a < b))
  | .pstr a, .pstr b => some (decide (a < b))
  | _, _ => none

/-- Stable insertion of x into an already sorted list, placing x after any
element whose key is not greater: exactly the comparisons a stable sort
performs, failing (none) as soon as an int key meets a str key. -/
def insertSorted (x : String) : List String → Option (List String)
  | [] => some [x]
  | y :: ys =>
    match pyKeyLt (sortKey x) (sortKey y) with
    | none => none
    | some true => some (x :: y :: ys)
    | some false => (insertSorted x ys).map (fun l => y :: l)

/-- sorted(sentences.keys(), key=lambda x: int(x) if x.isdigit() else x)
(record_audio.py line 249): a stable sort of the identifiers under the
Python key comparison, none when Python raises TypeError. -/
def sorted_sentence_ids (ids : List String) : Option (List String) :=
  ids.foldl (fun acc x => acc.bind (insertSorted x)) (some [])

/-- Total-order stable insertion used to characterise the successful runs of
insertSorted on kind-homogeneous input. -/
def insertBy (lt : String → String → Bool) (x : String) : List String → List String
  | [] => [x]
  | y :: ys => if lt x y then x :: y :: ys else y :: insertBy lt x ys

/-- Insertion sort by a boolean strict order, folding from the left as the
stable sort does. -/
def isortBy (lt : String → String → Bool) (l : List String) : List String :=
  l.foldl (fun acc x => insertBy lt x acc) []

/-- Numeric comparison of two digit strings. -/
def natLt (a b : String) : Bool := decide (strToNat a < strToNat b)

/-- Lexicographic comparison of two strings. -/
def strLt (a b : String) : Bool := decide (a < b)

/-! ## The shared-accent recording loop (record_audio.py lines 280-366) -/

/-- What the operator and the audio subsystem do for one presented sentence:
quit the session, or record, capturing some number of audio blocks, with the
subsequent save succeeding or failing. -/
inductive OpAction where
  | quit
  | record (chunks : Nat) (saveOk : Bool)

/-- The outcome of one visited sentence in the loop. -/
inductive Outcome where
  | skippedDone
  | saved
  | emptyCapture
  | quitSession
  | saveFailed
deriving DecidableEq

/-- The main recording loop: visit the worklist in order; skip a sentence
whose id is in the in-memory completion set (line 289); otherwise consume
the next operator action: quit breaks (line 299), an empty capture is
reported and skipped (lines 340-343), a successful save appends the id to
the completion set (line 359), a failed save breaks (line 366).  The trace
records each visited sentence with its outcome. -/
def recordingLoop (acts : Nat → OpAction) :
    List String → List String → Nat → List (String × Outcome)
  | _, [], _ => []
  | already, sid :: rest, n =>
    if sid ∈ already then
      (sid, .skippedDone) :: recordingLoop acts already rest n
    else
      match acts n with
      | .quit => [(sid, .quitSession)]
      | .record 0 _ => (sid, .emptyCapture) :: recordingLoop acts already rest (n + 1)
      | .record (_ + 1) true => (sid, .saved) :: recordingLoop acts (sid :: already) rest (n + 1)
      | .record (_ + 1) false => [(sid, .saveFailed)]

/-- The identifiers the run successfully saved (a file was written for each). -/
def savedIds (t : List (String × Outcome)) : List String :=
  (t.filter (fun e => decide (e.2 = Outcome.saved))).map Prod.fst

/-- session_recorded_count (line 355): successful saves in this run. -/
def session_recorded_count (t : List (String × Outcome)) : Nat :=
  (t.filter (fun e => decide (e.2 = Outcome.saved))).length

/-- session_skipped_count (line 291): sentences bypassed by the skip policy. -/
def session_skipped_count (t : List (String × Outcome)) : Nat :=
  (t.filter (fun e => decide (e.2 = Outcome.skippedDone))).length

/-! ## convert_csv_to_json.py -/

/-- os.path.dirname for POSIX paths: everything up to the last slash, with
trailing slashes stripped unless the head is all slashes; the empty string
when the path has no slash. -/
def pyDirname (p : String) : String :=
  let rev := p.data.reverse
  let headRev := rev.dropWhile (fun c => c ≠ '/')
  if headRev.isEmpty then ""
  else if headRev.all (fun c => c = '/') then String.mk headRev.reverse
  else String.mk ((headRev.dropWhile (fun c => c = '/')).reverse)

/-- The result of running a Python call: a returned value, or an uncaught
exception. -/
inductive PyResult (α : Type) where
  | ok (a : α)
  | raised (msg : String)
deriving DecidableEq

/-- Modelled from the library: os.makedirs(d, exist_ok=True) on a writable
filesystem raises FileNotFoundError when d is the empty string (CPython
calls mkdir('') which fails, and exist_ok only forgives an existing
directory) and succeeds otherwise. -/
def os_makedirs (d : String) : PyResult Unit :=
  if d = "" then .raised "FileNotFoundError" else .ok ()

/-- The row loop of convert_csv_to_json (lines 17-26): strip both fields and
append every row with both fields non-empty, in row order, with no
deduplication. -/
def convertRows (rows : List (String × String)) : List (String × String) :=
  rows.foldl (fun sentences row =>
    let sentence_id := pyStrip row.1
    let text := pyStrip row.2
    if sentence_id ≠ "" ∧ text ≠ "" then sentences ++ [(sentence_id, text)] else sentences) []

/-- convert_csv_to_json (convert_csv_to_json.py lines 5-37).  The directory
creation runs before the try block; everything inside the try that fails is
converted into a False return.  csvRead stands for the outcome of opening
and parsing the CSV (Except.error for any exception while reading);
writeOk for whether writing the JSON file succeeds.  The returned pair is
the Python return value together with the manifest written, if any. -/
def convert_csv_to_json (output_json_path : String)
    (csvRead : Except String (List (String × String))) (writeOk : Bool) :
    PyResult (Bool × Option (List (String × String))) :=
  match os_makedirs (pyDirname output_json_path) with
  | .raised e => .raised e
  | .ok _ =>
    match csvRead with
    | .error _ => .ok (false, none)
    | .ok rows =>
      let sentences := convertRows rows
      if writeOk then .ok (true, some sentences) else .ok (false, none)

/-! ## Theorems -/

/-- C7: a missing accent directory yields the empty set of completed
identifiers, with no error: the first run for a new accent or speaker
behaves as if nothing has been recorded. -/
theorem missing_accent_dir_empty :
    get_recorded_sentence_ids_for_accent none = ∅ := rfl

/-- C1 counterexample: with the one-sentence catalog whose identifier set is
the singleton "1" and a post-loop scan of a tree holding the stray file
A_999.wav next to A_1.wav, the code reports remaining = 1 - 2 = -1, while
the claim's intersection formula gives 1 - 1 = 0: a scanned identifier
absent from the catalog does change the remaining count. -/
theorem remaining_intersection_counterexample :
    remaining_for_accent (({"1"} : Finset String).card)
        (some [FsEntry.dir "A" [FsEntry.file "A_1.wav", FsEntry.file "A_999.wav"]])
      ≠ ((({"1"} : Finset String).card : Int) -
          (((get_recorded_sentence_ids_for_accent
              (some [FsEntry.dir "A" [FsEntry.file "A_1.wav", FsEntry.file "A_999.wav"]]))
            ∩ ({"1"} : Finset String)).card : Int)) := by
  decide

/-- C1 amended: the reported remaining count is the catalog size minus the raw
size of the scanned set; equivalently it is the intersection-based value
minus the number of scanned identifiers absent from the catalog, so each
stray or malformed file with a fresh trailing id lowers the reported
remaining by one. -/
theorem remaining_counts_stray_identifiers (catalog : Finset String)
    (accentDir : Option (List FsEntry)) :
    remaining_for_accent catalog.card accentDir
      = ((catalog.card : Int)
          - ((get_recorded_sentence_ids_for_accent accentDir ∩ catalog).card : Int))
        - ((get_recorded_sentence_ids_for_accent accentDir \ catalog).card : Int) := by
  have h := Finset.card_inter_add_card_sdiff
    (get_recorded_sentence_ids_for_accent accentDir) catalog
  unfold remaining_for_accent
  omega

/-- C2 counterexample: on the mixed catalog with identifiers "1" and "a" the
worklist ordering does not succeed: Python's sorted raises TypeError when
the int key of "1" meets the str key of "a". -/
theorem mixed_catalog_sort_counterexample :
    sorted_sentence_ids ["1", "a"] = none := by
  decide

/-- takeWhile and dropWhile on a list made of a prefix on which the predicate
holds followed by an element on which it fails. -/
theorem takeWhile_dropWhile_split (p : Char → Bool) :
    ∀ (l₁ : List Char) (x : Char) (l₂ : List Char),
      (∀ a ∈ l₁, p a = true) → p x = false →
      (l₁ ++ x :: l₂).takeWhile p = l₁ ∧ (l₁ ++ x :: l₂).dropWhile p = x :: l₂ := by
  intro l₁
  induction l₁ with
  | nil =>
    intro x l₂ _ hx
    simp [List.takeWhile_cons, List.dropWhile_cons, hx]
  | cons a l₁ ih =>
    intro x l₂ hall hx
    have ha : p a = true := hall a (by simp)
    have ih2 := ih x l₂ (fun b hb => hall b (by simp [hb])) hx
    simp [List.takeWhile_cons, List.dropWhile_cons, ha, ih2.1, ih2.2]

/-- C4: the per-file scan extracts a trailing digit run exactly when the
filename ends with an underscore, one or more digits, and the ".wav"
extension (in either letter case, as the code checks case-insensitively);
the extracted identifier is that digit run.  Any non-matching file, such as
SPK1_abc.wav, contributes nothing and raises no error: scanning a speaker
folder holding only such a file yields the empty set. -/
theorem extract_id_trailing_pattern :
    (∀ filename id : String,
      extract_sentence_id filename = some id ↔
        ∃ p ds ext : List Char,
          filename.data = p ++ '_' :: (ds ++ ext) ∧
          ds ≠ [] ∧ (∀ c ∈ ds, c.isDigit = true) ∧
          ext.map Char.toLower = ['.', 'w', 'a', 'v'] ∧
          id = String.mk ds)
    ∧ extract_sentence_id "SPK1_abc.wav" = none
    ∧ get_recorded_sentence_ids_for_accent
        (some [FsEntry.dir "SPK1" [FsEntry.file "SPK1_abc.wav"]]) = ∅ := by
  refine ⟨?_, by decide, by decide⟩
  intro filename id
  constructor
  · intro h
    unfold extract_sentence_id at h
    split at h
    case isFalse => exact absurd h (by simp)
    case isTrue hlow =>
      unfold wavSearch at h
      split at h
      case isFalse => exact absurd h (by simp)
      case isTrue hc1 =>
        split at h
        case isTrue => exact absurd h (by simp)
        case isFalse hne =>
          split at h
          case h_2 hmatch => exact absurd h (by simp)
          case h_1 tail hmatch =>
            have hid : id
                = String.mk (((filename.data.reverse.drop 4).takeWhile Char.isDigit).reverse) :=
              (Option.some.inj h).symm
            set rev := filename.data.reverse with hrevdef
            set T := (rev.drop 4).takeWhile Char.isDigit with hT
            set D := (rev.drop 4).dropWhile Char.isDigit with hD
            set E := rev.take 4 with hE
            have hsplit : E ++ rev.drop 4 = rev := List.take_append_drop 4 rev
            have hdsplit : T ++ D = rev.drop 4 :=
              List.takeWhile_append_dropWhile Char.isDigit (rev.drop 4)
            have e1 : rev.drop 4 = T ++ ('_' :: tail) := by
              rw [← hdsplit, hmatch]
            have e2 : rev = E ++ (T ++ ('_' :: tail)) := by
              conv_lhs => rw [← hsplit]
              rw [e1]
            have hTne : T ≠ [] := by
              intro hnil
              rw [hnil] at hne
              simp at hne
            refine ⟨tail.reverse, T.reverse, E.reverse, ?_, ?_, ?_, ?_, hid⟩
            · have h0 : filename.data = rev.reverse := by
                rw [hrevdef, List.reverse_reverse]
              rw [h0, e2]
              simp [List.reverse_append, List.append_assoc]
            · simp [hTne]
            · intro c hc
              rw [List.mem_reverse] at hc
              rw [hT] at hc
              exact List.mem_takeWhile_imp hc
            · have h1 : E.map Char.toLower = wavRev := by
                have := hc1
                rwa [beq_iff_eq] at this
              rw [List.map_reverse, h1]
              rfl
  · rintro ⟨p, ds, ext, hdata, hne, hdig, hext, hid⟩
    have hextlen : ext.length = 4 := by
      have := congrArg List.length hext
      simpa using this
    have hrev : filename.data.reverse = ext.reverse ++ (ds.reverse ++ ('_' :: p.reverse)) := by
      rw [hdata]
      simp [List.reverse_append, List.append_assoc]
    have hrevlen : ext.reverse.length = 4 := by simp [hextlen]
    have ht4 : filename.data.reverse.take 4 = ext.reverse := by
      rw [hrev, ← hrevlen, List.take_left]
    have hd4 : filename.data.reverse.drop 4 = ds.reverse ++ ('_' :: p.reverse) := by
      rw [hrev, ← hrevlen, List.drop_left]
    have hmaplow : ext.reverse.map Char.toLower = wavRev := by
      rw [List.map_reverse, hext]
      rfl
    have hsplit := takeWhile_dropWhile_split Char.isDigit ds.reverse '_' p.reverse
      (fun a ha => hdig a (List.mem_reverse.mp ha)) (by decide)
    have htw : (filename.data.reverse.drop 4).takeWhile Char.isDigit = ds.reverse := by
      rw [hd4]; exact hsplit.1
    have hdw : (filename.data.reverse.drop 4).dropWhile Char.isDigit = '_' :: p.reverse := by
      rw [hd4]; exact hsplit.2
    have hnotEmpty : ds.reverse.isEmpty = false := by
      cases hds : ds.reverse with
      | nil => exact absurd (List.reverse_eq_nil_iff.mp hds) hne
      | cons a l => simp
    have hb1 : (((filename.data.reverse.take 4).map Char.toLower) == wavRev) = true := by
      rw [ht4, hmaplow]
      exact beq_self_eq_true wavRev
    have hlow : lowerEndsWithWav filename = true := by
      unfold lowerEndsWithWav
      rw [← List.map_reverse, ← List.map_take, ht4, hmaplow]
      exact beq_self_eq_true wavRev
    have hws : wavSearch filename = some id := by
      unfold wavSearch
      rw [hid]
      simp only [hb1, if_true, htw, hdw, hnotEmpty]
      simp
    unfold extract_sentence_id
    rw [hlow, if_pos rfl, hws]

/-- Membership in the inner fold of the accent scan: an identifier is
collected from one speaker directory iff it was already in the accumulator
or some entry name in that directory matches the extraction rule. -/
theorem mem_scanSpeakerDir (x : String) :
    ∀ (children : List FsEntry) (s : Finset String),
      x ∈ scanSpeakerDir s children ↔
        x ∈ s ∨ ∃ c ∈ children, extract_sentence_id (entryName c) = some x := by
  intro children
  induction children with
  | nil => intro s; simp [scanSpeakerDir]
  | cons c cs ih =>
    intro s
    have hstep : ∀ t : Finset String, scanSpeakerDir t (c :: cs)
        = scanSpeakerDir (match extract_sentence_id (entryName c) with
          | some id => insert id t
          | none => t) cs := fun _ => rfl
    cases hc : extract_sentence_id (entryName c) with
    | none =>
      rw [hstep s, hc, ih]
      constructor
      · rintro (hx | ⟨d, hd, hdx⟩)
        · exact Or.inl hx
        · exact Or.inr ⟨d, by simp [hd], hdx⟩
      · rintro (hx | ⟨d, hd, hdx⟩)
        · exact Or.inl hx
        · rcases List.mem_cons.mp hd with rfl | hd
          · rw [hc] at hdx; exact absurd hdx (by simp)
          · exact Or.inr ⟨d, hd, hdx⟩
    | some idv =>
      rw [hstep s, hc, ih, Finset.mem_insert]
      constructor
      · rintro ((rfl | hx) | ⟨d, hd, hdx⟩)
        · exact Or.inr ⟨c, by simp, hc⟩
        · exact Or.inl hx
        · exact Or.inr ⟨d, by simp [hd], hdx⟩
      · rintro (hx | ⟨d, hd, hdx⟩)
        · exact Or.inl (Or.inr hx)
        · rcases List.mem_cons.mp hd with rfl | hd
          · rw [hc] at hdx
            exact Or.inl (Or.inl (by injection hdx with h; exact h.symm))
          · exact Or.inr ⟨d, hd, hdx⟩

/-- Membership in the outer fold of the accent scan. -/
theorem mem_accent_fold (x : String) :
    ∀ (entries : List FsEntry) (s : Finset String),
      x ∈ entries.foldl (fun acc e =>
          match e with
          | .file _ => acc
          | .dir _ children => scanSpeakerDir acc children) s ↔
        x ∈ s ∨ ∃ name children, FsEntry.dir name children ∈ entries ∧
          ∃ c ∈ children, extract_sentence_id (entryName c) = some x := by
  intro entries
  induction entries with
  | nil => intro s; simp
  | cons e es ih =>
    intro s
    cases e with
    | file n =>
      rw [show (FsEntry.file n :: es).foldl (fun acc e =>
          match e with
          | .file _ => acc
          | .dir _ children => scanSpeakerDir acc children) s
        = es.foldl (fun acc e =>
          match e with
          | .file _ => acc
          | .dir _ children => scanSpeakerDir acc children) s from rfl]
      rw [ih]
      constructor
      · rintro (hx | ⟨nm, ch, hmem, hc⟩)
        · exact Or.inl hx
        · exact Or.inr ⟨nm, ch, by simp [hmem], hc⟩
      · rintro (hx | ⟨nm, ch, hmem, hc⟩)
        · exact Or.inl hx
        · rcases List.mem_cons.mp hmem with heq | hmem
          · exact absurd heq (by simp)
          · exact Or.inr ⟨nm, ch, hmem, hc⟩
    | dir n ch₀ =>
      rw [show (FsEntry.dir n ch₀ :: es).foldl (fun acc e =>
          match e with
          | .file _ => acc
          | .dir _ children => scanSpeakerDir acc children) s
        = es.foldl (fun acc e =>
          match e with
          | .file _ => acc
          | .dir _ children => scanSpeakerDir acc children) (scanSpeakerDir s ch₀) from rfl]
      rw [ih, mem_scanSpeakerDir]
      constructor
      · rintro ((hx | ⟨c, hcm, hcx⟩) | ⟨nm, ch, hmem, hc⟩)
        · exact Or.inl hx
        · exact Or.inr ⟨n, ch₀, by simp, c, hcm, hcx⟩
        · exact Or.inr ⟨nm, ch, by simp [hmem], hc⟩
      · rintro (hx | ⟨nm, ch, hmem, hc⟩)
        · exact Or.inl (Or.inl hx)
        · rcases List.mem_cons.mp hmem with heq | hmem
          · injection heq with h1 h2
            subst h2
            exact Or.inl (Or.inr hc)
          · exact Or.inr ⟨nm, ch, hmem, hc⟩

/-- C5: the accent-scoped scan visits every immediate subdirectory, skips
non-directory entries, applies the per-file extraction in each, and returns
the union of the extracted identifiers; in particular with speaker A having
recorded sentence 5 and speaker B sentence 7 it returns the set containing
exactly "5" and "7". -/
theorem accent_scan_union :
    (∀ (entries : List FsEntry) (x : String),
      x ∈ get_recorded_sentence_ids_for_accent (some entries) ↔
        ∃ name children, FsEntry.dir name children ∈ entries ∧
          ∃ c ∈ children, extract_sentence_id (entryName c) = some x)
    ∧ get_recorded_sentence_ids_for_accent
        (some [FsEntry.dir "A" [FsEntry.file "A_5.wav"], FsEntry.dir "B" [FsEntry.file "B_7.wav"]])
      = ({"5", "7"} : Finset String) := by
  refine ⟨?_, by decide⟩
  intro entries x
  unfold get_recorded_sentence_ids_for_accent
  rw [mem_accent_fold]
  simp

/-- One step of the loader loop, unfolded. -/
theorem loadAux_cons (row : String × String) (rows acc : List (String × String)) (d : Nat) :
    loadAux (row :: rows) acc d
      = if pyStrip row.1 ≠ "" ∧ pyStrip row.2 ≠ "" then
          (if acc.any (fun e => e.1 == pyStrip row.1) then loadAux rows acc (d + 1)
           else loadAux rows (acc ++ [(pyStrip row.1, pyStrip row.2)]) d)
        else loadAux rows acc d := rfl

/-- One step of validRows, unfolded. -/
theorem validRows_cons (row : String × String) (rows : List (String × String)) :
    validRows (row :: rows)
      = if pyStrip row.1 ≠ "" ∧ pyStrip row.2 ≠ "" then
          (pyStrip row.1, pyStrip row.2) :: validRows rows
        else validRows rows := by
  unfold validRows
  rw [List.filterMap_cons]
  by_cases hv : pyStrip row.1 ≠ "" ∧ pyStrip row.2 ≠ ""
  · rw [if_pos hv, if_pos hv]
  · rw [if_neg hv, if_neg hv]

/-- The catalog built by the loader answers key lookups like the list of valid
rows does: the first matching entry wins, entries already present shadow
later duplicates. -/
theorem loadAux_find (id : String) :
    ∀ (rows acc : List (String × String)) (d : Nat),
      (loadAux rows acc d).1.find? (fun e => e.1 == id)
        = (acc.find? (fun e => e.1 == id)).or ((validRows rows).find? (fun e => e.1 == id)) := by
  intro rows
  induction rows with
  | nil =>
    intro acc d
    show (acc.find? _) = _
    rw [show validRows [] = [] from rfl, List.find?_nil, Option.or_none]
  | cons row rows ih =>
    intro acc d
    rw [loadAux_cons, validRows_cons]
    by_cases hv : pyStrip row.1 ≠ "" ∧ pyStrip row.2 ≠ ""
    · rw [if_pos hv, if_pos hv]
      by_cases hdup : acc.any (fun e => e.1 == pyStrip row.1)
      · rw [if_pos hdup, ih]
        by_cases hpa : (pyStrip row.1 == id) = true
        · have hkey : pyStrip row.1 = id := eq_of_beq hpa
          have hsome : (acc.find? (fun e => e.1 == id)).isSome := by
            rw [List.find?_isSome]
            rcases List.any_eq_true.mp hdup with ⟨e, he, hbe⟩
            refine ⟨e, he, ?_⟩
            rw [eq_of_beq hbe, hkey]
            simp
          rcases Option.isSome_iff_exists.mp hsome with ⟨v, hval⟩
          rw [hval]
          rfl
        · rw [List.find?_cons]
          have : ((pyStrip row.1, pyStrip row.2).1 == id) = false := by
            simpa using hpa
          rw [this]
      · rw [if_neg hdup, ih, List.find?_append, Option.or_assoc]
        congr 1
        rw [List.find?_cons, List.find?_cons]
        by_cases hpa : (pyStrip row.1 == id) = true
        · have : ((pyStrip row.1, pyStrip row.2).1 == id) = true := hpa
          rw [this]
          rfl
        · have : ((pyStrip row.1, pyStrip row.2).1 == id) = false := by
            simpa using hpa
          rw [this, List.find?_nil, Option.none_or]
    · rw [if_neg hv, if_neg hv, ih]

/-- The loader never inserts a key twice. -/
theorem loadAux_nodup :
    ∀ (rows acc : List (String × String)) (d : Nat),
      (acc.map Prod.fst).Nodup → ((loadAux rows acc d).1.map Prod.fst).Nodup := by
  intro rows
  induction rows with
  | nil => intro acc d h; exact h
  | cons row rows ih =>
    intro acc d h
    rw [loadAux_cons]
    by_cases hv : pyStrip row.1 ≠ "" ∧ pyStrip row.2 ≠ ""
    · rw [if_pos hv]
      by_cases hdup : acc.any (fun e => e.1 == pyStrip row.1)
      · rw [if_pos hdup]
        exact ih acc (d + 1) h
      · rw [if_neg hdup]
        refine ih _ d ?_
        have hfalse : (acc.any fun e => e.1 == pyStrip row.1) = false :=
          Bool.eq_false_iff.mpr hdup
        have hnot : pyStrip row.1 ∉ acc.map Prod.fst := by
          intro hmem
          rcases List.mem_map.mp hmem with ⟨e, he, hkey⟩
          exact (List.any_eq_false.mp hfalse e he) (by simp [hkey])
        rw [List.map_append]
        simp [List.nodup_append, h, hnot]
    · rw [if_neg hv]
      exact ih acc d h

/-- Each valid row either enters the catalog or bumps the duplicate-warning
counter: warnings plus catalog size equals the number of valid rows. -/
theorem loadAux_warn_count :
    ∀ (rows acc : List (String × String)) (d : Nat),
      (loadAux rows acc d).2 + (loadAux rows acc d).1.length
        = d + acc.length + (validRows rows).length := by
  intro rows
  induction rows with
  | nil =>
    intro acc d
    show d + acc.length = d + acc.length + ([] : List (String × String)).length
    simp
  | cons row rows ih =>
    intro acc d
    rw [loadAux_cons, validRows_cons]
    by_cases hv : pyStrip row.1 ≠ "" ∧ pyStrip row.2 ≠ ""
    · rw [if_pos hv, if_pos hv]
      by_cases hdup : acc.any (fun e => e.1 == pyStrip row.1)
      · rw [if_pos hdup, ih]
        simp
        omega
      · rw [if_neg hdup, ih]
        simp
        omega
    · rw [if_neg hv, if_neg hv, ih]

/-- C6: on duplicate identifiers the loader keeps the first occurrence's text
and discards every later one with one warning each: the catalog answers any
identifier lookup exactly as the first matching valid row does, its keys
are unique, and the number of duplicate warnings plus the catalog size is
the number of valid rows. -/
theorem load_sentences_first_occurrence (rows : List (String × String)) :
    (∀ id : String,
      (load_sentences_from_csv rows).1.find? (fun e => e.1 == id)
        = (validRows rows).find? (fun e => e.1 == id))
    ∧ ((load_sentences_from_csv rows).1.map Prod.fst).Nodup
    ∧ (load_sentences_from_csv rows).2 + (load_sentences_from_csv rows).1.length
        = (validRows rows).length := by
  refine ⟨?_, ?_, ?_⟩
  · intro id
    unfold load_sentences_from_csv
    rw [loadAux_find, List.find?_nil, Option.none_or]
  · exact loadAux_nodup rows [] 0 (by simp)
  · have := loadAux_warn_count rows [] 0
    unfold load_sentences_from_csv
    simpa using this

/-- Membership after a stable insertion. -/
theorem mem_insertBy (lt : String → String → Bool) (x a : String) :
    ∀ l : List String, a ∈ insertBy lt x l ↔ a = x ∨ a ∈ l := by
  intro l
  induction l with
  | nil => simp [insertBy]
  | cons y ys ih =>
    unfold insertBy
    by_cases hlt : lt x y
    · rw [if_pos hlt]
      simp
    · rw [if_neg hlt]
      rw [List.mem_cons, ih, List.mem_cons]
      tauto

/-- A stable insertion is a permutation of consing. -/
theorem perm_insertBy (lt : String → String → Bool) (x : String) :
    ∀ l : List String, (insertBy lt x l).Perm (x :: l) := by
  intro l
  induction l with
  | nil => simp [insertBy]
  | cons y ys ih =>
    unfold insertBy
    by_cases hlt : lt x y
    · rw [if_pos hlt]
    · rw [if_neg hlt]
      exact (ih.cons y).trans (List.Perm.swap x y ys)

/-- The left fold of stable insertions permutes the accumulator and the input. -/
theorem perm_isortBy_aux (lt : String → String → Bool) :
    ∀ (l acc : List String),
      (l.foldl (fun a x => insertBy lt x a) acc).Perm (acc ++ l) := by
  intro l
  induction l with
  | nil => intro acc; simp
  | cons x l ih =>
    intro acc
    rw [List.foldl_cons]
    refine (ih (insertBy lt x acc)).trans ?_
    refine (List.Perm.append_right l (perm_insertBy lt x acc)).trans ?_
    rw [show (x :: acc) ++ l = x :: (acc ++ l) from rfl]
    exact List.perm_middle.symm

/-- Insertion sort permutes its input. -/
theorem perm_isortBy (lt : String → String → Bool) (l : List String) :
    (isortBy lt l).Perm l := by
  unfold isortBy
  simpa using perm_isortBy_aux lt l []

/-- A stable insertion into a list sorted by the reflexive closure of an
asymmetric transitive comparison stays sorted. -/
theorem sorted_insertBy (lt : String → String → Bool)
    (hasym : ∀ a b, lt a b = true → lt b a = false)
    (htrans : ∀ a b c, lt a b = true → lt b c = true → lt a c = true)
    (x : String) :
    ∀ l : List String, l.Pairwise (fun a b => lt b a = false) →
      (insertBy lt x l).Pairwise (fun a b => lt b a = false) := by
  intro l
  induction l with
  | nil => intro _; simp [insertBy]
  | cons y ys ih =>
    intro hs
    rcases List.pairwise_cons.mp hs with ⟨hy, hys⟩
    unfold insertBy
    by_cases hlt : lt x y
    · rw [if_pos hlt]
      refine List.pairwise_cons.mpr ⟨?_, hs⟩
      intro z hz
      rcases List.mem_cons.mp hz with rfl | hz
      · exact hasym x z hlt
      · rcases Bool.eq_false_or_eq_true (lt z x) with hzx | hzx
        · have hzy : lt z y = true := htrans z x y hzx hlt
          rw [hy z hz] at hzy
          exact absurd hzy (by simp)
        · exact hzx
    · rw [if_neg hlt]
      refine List.pairwise_cons.mpr ⟨?_, ih hys⟩
      intro z hz
      rcases (mem_insertBy lt x z (ys)).mp hz with rfl | hz
      · exact Bool.eq_false_iff.mpr hlt
      · exact hy z hz

/-- The fold of stable insertions preserves sortedness of the accumulator. -/
theorem sorted_isortBy_aux (lt : String → String → Bool)
    (hasym : ∀ a b, lt a b = true → lt b a = false)
    (htrans : ∀ a b c, lt a b = true → lt b c = true → lt a c = true) :
    ∀ (l acc : List String), acc.Pairwise (fun a b => lt b a = false) →
      (l.foldl (fun a x => insertBy lt x a) acc).Pairwise (fun a b => lt b a = false) := by
  intro l
  induction l with
  | nil => intro acc h; exact h
  | cons x l ih =>
    intro acc h
    rw [List.foldl_cons]
    exact ih (insertBy lt x acc) (sorted_insertBy lt hasym htrans x acc h)

/-- Insertion sort sorts. -/
theorem sorted_isortBy (lt : String → String → Bool)
    (hasym : ∀ a b, lt a b = true → lt b a = false)
    (htrans : ∀ a b c, lt a b = true → lt b c = true → lt a c = true)
    (l : List String) :
    (isortBy lt l).Pairwise (fun a b => lt b a = false) :=
  sorted_isortBy_aux lt hasym htrans l [] (by simp)

/-- On two digit identifiers the Python key comparison is the numeric one. -/
theorem pyKeyLt_digit (x y : String) (hx : isDigitStr x = true) (hy : isDigitStr y = true) :
    pyKeyLt (sortKey x) (sortKey y) = some (natLt x y) := by
  unfold sortKey
  rw [hx, hy]
  rfl

/-- On two non-digit identifiers the Python key comparison is lexicographic. -/
theorem pyKeyLt_str (x y : String) (hx : isDigitStr x = false) (hy : isDigitStr y = false) :
    pyKeyLt (sortKey x) (sortKey y) = some (strLt x y) := by
  unfold sortKey
  rw [hx, hy]
  rfl

/-- On kind-homogeneous input the fallible Python insertion agrees with the
total insertion by the corresponding comparison. -/
theorem insertSorted_eq_insertBy (lt : String → String → Bool) (b : Bool)
    (hbr : ∀ x y, isDigitStr x = b → isDigitStr y = b →
      pyKeyLt (sortKey x) (sortKey y) = some (lt x y))
    (x : String) (hx : isDigitStr x = b) :
    ∀ l : List String, (∀ y ∈ l, isDigitStr y = b) →
      insertSorted x l = some (insertBy lt x l) := by
  intro l
  induction l with
  | nil => intro _; rfl
  | cons y ys ih =>
    intro hl
    have hy : isDigitStr y = b := hl y (by simp)
    have hk := hbr x y hx hy
    unfold insertSorted insertBy
    rw [hk]
    by_cases hlt : lt x y
    · rw [hlt]
      rfl
    · rw [Bool.eq_false_iff.mpr hlt]
      rw [ih (fun z hz => hl z (by simp [hz]))]
      rfl

/-- On kind-homogeneous input the Python sort succeeds and agrees with the
insertion sort by the corresponding comparison. -/
theorem sortIds_eq_isortBy_aux (lt : String → String → Bool) (b : Bool)
    (hbr : ∀ x y, isDigitStr x = b → isDigitStr y = b →
      pyKeyLt (sortKey x) (sortKey y) = some (lt x y)) :
    ∀ (l acc : List String), (∀ y ∈ acc, isDigitStr y = b) → (∀ y ∈ l, isDigitStr y = b) →
      l.foldl (fun a x => a.bind (insertSorted x)) (some acc)
        = some (l.foldl (fun a x => insertBy lt x a) acc) := by
  intro l
  induction l with
  | nil => intro acc _ _; rfl
  | cons x l ih =>
    intro acc hacc hl
    have hx : isDigitStr x = b := hl x (by simp)
    rw [List.foldl_cons, List.foldl_cons]
    rw [show (some acc).bind (insertSorted x) = insertSorted x acc from rfl]
    rw [insertSorted_eq_insertBy lt b hbr x hx acc hacc]
    refine ih (insertBy lt x acc) ?_ (fun z hz => hl z (by simp [hz]))
    intro z hz
    rcases (mem_insertBy lt x z acc).mp hz with rfl | hz
    · exact hx
    · exact hacc z hz

/-- sorted_sentence_ids on kind-homogeneous input is the corresponding
insertion sort. -/
theorem sortIds_eq_isortBy (lt : String → String → Bool) (b : Bool)
    (hbr : ∀ x y, isDigitStr x = b → isDigitStr y = b →
      pyKeyLt (sortKey x) (sortKey y) = some (lt x y))
    (ids : List String) (hids : ∀ y ∈ ids, isDigitStr y = b) :
    sorted_sentence_ids ids = some (isortBy lt ids) :=
  sortIds_eq_isortBy_aux lt b hbr ids [] (by simp) hids

/-- Once the fold has failed it stays failed. -/
theorem foldl_bind_none :
    ∀ l : List String,
      l.foldl (fun a x => a.bind (insertSorted x)) none = none := by
  intro l
  induction l with
  | nil => rfl
  | cons x l ih => rw [List.foldl_cons]; exact ih

/-- A successful Python insertion into a non-empty list compared the new
element with the head, so their kinds agree. -/
theorem insertSorted_head_kind (x h : String) (tl r : List String)
    (hins : insertSorted x (h :: tl) = some r) :
    isDigitStr x = isDigitStr h := by
  rcases Bool.eq_false_or_eq_true (isDigitStr x) with hx | hx <;>
    rcases Bool.eq_false_or_eq_true (isDigitStr h) with hh | hh
  · rw [hx, hh]
  · exfalso
    have hk : pyKeyLt (sortKey x) (sortKey h) = none := by
      unfold sortKey
      rw [hx, hh]
      rfl
    unfold insertSorted at hins
    rw [hk] at hins
    exact absurd hins (by simp)
  · exfalso
    have hk : pyKeyLt (sortKey x) (sortKey h) = none := by
      unfold sortKey
      rw [hx, hh]
      rfl
    unfold insertSorted at hins
    rw [hk] at hins
    exact absurd hins (by simp)
  · rw [hx, hh]

/-- Elements of a successful Python insertion come from the inserted element
or the old list. -/
theorem insertSorted_mem (x : String) :
    ∀ (l r : List String), insertSorted x l = some r →
      ∀ z ∈ r, z = x ∨ z ∈ l := by
  intro l
  induction l with
  | nil =>
    intro r hins z hz
    have : r = [x] := by
      have := hins
      unfold insertSorted at this
      exact (Option.some.inj this).symm
    rw [this] at hz
    simp at hz
    exact Or.inl hz
  | cons y ys ih =>
    intro r hins z hz
    unfold insertSorted at hins
    cases hk : pyKeyLt (sortKey x) (sortKey y) with
    | none => rw [hk] at hins; exact absurd hins (by simp)
    | some bv =>
      rw [hk] at hins
      cases bv with
      | true =>
        simp only at hins
        have : r = x :: y :: ys := (Option.some.inj hins).symm
        rw [this] at hz
        rcases List.mem_cons.mp hz with rfl | hz
        · exact Or.inl rfl
        · exact Or.inr hz
      | false =>
        simp only at hins
        cases hrec : insertSorted x ys with
        | none => rw [hrec] at hins; exact absurd hins (by simp)
        | some r' =>
          rw [hrec] at hins
          have : r = y :: r' := by
            have := Option.some.inj hins
            exact this.symm
          rw [this] at hz
          rcases List.mem_cons.mp hz with rfl | hz
          · exact Or.inr (by simp)
          · rcases ih r' hrec z hz with rfl | hz2
            · exact Or.inl rfl
            · exact Or.inr (by simp [hz2])

/-- A successful Python insertion is never empty. -/
theorem insertSorted_ne_nil (x : String) :
    ∀ (l r : List String), insertSorted x l = some r → r ≠ [] := by
  intro l
  induction l with
  | nil =>
    intro r hins
    have : r = [x] := (Option.some.inj hins).symm
    rw [this]
    simp
  | cons y ys ih =>
    intro r hins
    unfold insertSorted at hins
    cases hk : pyKeyLt (sortKey x) (sortKey y) with
    | none => rw [hk] at hins; exact absurd hins (by simp)
    | some bv =>
      rw [hk] at hins
      cases bv with
      | true =>
        simp only at hins
        have : r = x :: y :: ys := (Option.some.inj hins).symm
        rw [this]
        simp
      | false =>
        simp only at hins
        cases hrec : insertSorted x ys with
        | none => rw [hrec] at hins; exact absurd hins (by simp)
        | some r' =>
          rw [hrec] at hins
          have : r = y :: r' := (Option.some.inj hins).symm
          rw [this]
          simp

/-- If the fold of Python insertions succeeds from a non-empty homogeneous
accumulator then all remaining input has the accumulator's kind. -/
theorem sortAux_homog (b : Bool) :
    ∀ (l acc r : List String),
      l.foldl (fun a x => a.bind (insertSorted x)) (some acc) = some r →
      (∀ y ∈ acc, isDigitStr y = b) → acc ≠ [] →
      ∀ y ∈ l, isDigitStr y = b := by
  intro l
  induction l with
  | nil => intro acc r _ _ _ y hy; exact absurd hy (by simp)
  | cons x l ih =>
    intro acc r hfold hacc hne
    rw [List.foldl_cons] at hfold
    rw [show (some acc).bind (insertSorted x) = insertSorted x acc from rfl] at hfold
    cases hins : insertSorted x acc with
    | none =>
      rw [hins] at hfold
      rw [foldl_bind_none] at hfold
      exact absurd hfold (by simp)
    | some acc' =>
      rw [hins] at hfold
      obtain ⟨h, tl, rfl⟩ : ∃ h tl, acc = h :: tl := by
        cases acc with
        | nil => exact absurd rfl hne
        | cons h tl => exact ⟨h, tl, rfl⟩
      have hxkind : isDigitStr x = b := by
        rw [insertSorted_head_kind x h tl acc' hins]
        exact hacc h (by simp)
      have hacc' : ∀ y ∈ acc', isDigitStr y = b := by
        intro z hz
        rcases insertSorted_mem x (h :: tl) acc' hins z hz with rfl | hz
        · exact hxkind
        · exact hacc z hz
      have hne' : acc' ≠ [] := insertSorted_ne_nil x (h :: tl) acc' hins
      intro y hy
      rcases List.mem_cons.mp hy with rfl | hy
      · exact hxkind
      · exact ih acc' r hfold hacc' hne' y hy

/-- A catalog mixing digit and non-digit identifiers makes the Python sort
raise TypeError. -/
theorem sorted_sentence_ids_mixed_none (ids : List String)
    (ha : ∃ a ∈ ids, isDigitStr a = true) (hb : ∃ b ∈ ids, isDigitStr b = false) :
    sorted_sentence_ids ids = none := by
  cases hres : sorted_sentence_ids ids with
  | none => rfl
  | some r =>
    exfalso
    rcases ha with ⟨a, hamem, hakind⟩
    rcases hb with ⟨c, hcmem, hckind⟩
    cases ids with
    | nil => exact absurd hamem (by simp)
    | cons x l =>
      unfold sorted_sentence_ids at hres
      rw [List.foldl_cons] at hres
      rw [show ((some []).bind (insertSorted x) : Option (List String)) = some [x] from rfl]
        at hres
      have hkinds := sortAux_homog (isDigitStr x) l [x] r hres (by simp) (by simp)
      have hka : isDigitStr a = isDigitStr x := by
        rcases List.mem_cons.mp hamem with rfl | ha2
        · rfl
        · exact hkinds a ha2
      have hkc : isDigitStr c = isDigitStr x := by
        rcases List.mem_cons.mp hcmem with rfl | hc2
        · rfl
        · exact hkinds c hc2
      rw [hakind] at hka
      rw [hckind] at hkc
      rw [← hka] at hkc
      exact absurd hkc (by simp)

/-- natLt is asymmetric. -/
theorem natLt_asym (a b : String) (h : natLt a b = true) : natLt b a = false := by
  unfold natLt at h ⊢
  rw [decide_eq_true_eq] at h
  rw [decide_eq_false_iff_not]
  omega

/-- natLt is transitive. -/
theorem natLt_trans (a b c : String) (h1 : natLt a b = true) (h2 : natLt b c = true) :
    natLt a c = true := by
  unfold natLt at h1 h2 ⊢
  rw [decide_eq_true_eq] at h1 h2
  rw [decide_eq_true_eq]
  omega

/-- strLt is asymmetric. -/
theorem strLt_asym (a b : String) (h : strLt a b = true) : strLt b a = false := by
  unfold strLt at h ⊢
  rw [decide_eq_true_eq] at h
  rw [decide_eq_false_iff_not]
  exact lt_asymm h

/-- strLt is transitive. -/
theorem strLt_trans (a b c : String) (h1 : strLt a b = true) (h2 : strLt b c = true) :
    strLt a c = true := by
  unfold strLt at h1 h2 ⊢
  rw [decide_eq_true_eq] at h1 h2
  rw [decide_eq_true_eq]
  exact lt_trans h1 h2

/-- C2 amended: computing the worklist order succeeds on kind-homogeneous
catalogs: all-digit catalogs come out as a permutation ordered by integer
value and all-non-digit catalogs as a permutation ordered lexicographically;
the example catalog 1, 2, 10 is visited in numeric order.  But a catalog
mixing digit and non-digit identifiers makes the sort fail with TypeError:
Python cannot compare an int key with a str key. -/
theorem sorted_order_homogeneous :
    (∀ ids : List String,
      ((∀ s ∈ ids, isDigitStr s = true) →
        ∃ l, sorted_sentence_ids ids = some l ∧ l.Perm ids ∧
          l.Pairwise (fun a b => strToNat a ≤ strToNat b)) ∧
      ((∀ s ∈ ids, isDigitStr s = false) →
        ∃ l, sorted_sentence_ids ids = some l ∧ l.Perm ids ∧
          l.Pairwise (fun a b => a ≤ b)) ∧
      ((∃ a ∈ ids, isDigitStr a = true) → (∃ b ∈ ids, isDigitStr b = false) →
        sorted_sentence_ids ids = none))
    ∧ sorted_sentence_ids ["1", "2", "10"] = some ["1", "2", "10"] := by
  refine ⟨?_, by decide⟩
  intro ids
  refine ⟨?_, ?_, sorted_sentence_ids_mixed_none ids⟩
  · intro hall
    refine ⟨isortBy natLt ids,
      sortIds_eq_isortBy natLt true pyKeyLt_digit ids hall,
      perm_isortBy natLt ids, ?_⟩
    have hs := sorted_isortBy natLt natLt_asym natLt_trans ids
    refine hs.imp ?_
    intro a b hab
    have : ¬ strToNat b < strToNat a := by
      have := hab
      unfold natLt at this
      rwa [decide_eq_false_iff_not] at this
    omega
  · intro hall
    refine ⟨isortBy strLt ids,
      sortIds_eq_isortBy strLt false pyKeyLt_str ids hall,
      perm_isortBy strLt ids, ?_⟩
    have hs := sorted_isortBy strLt strLt_asym strLt_trans ids
    refine hs.imp ?_
    intro a b hab
    have hnot : ¬ b < a := by
      have := hab
      unfold strLt at this
      rwa [decide_eq_false_iff_not] at this
    exact le_of_not_lt hnot

/-- Witness: the all-digit catalog 10, 2, 1 is sorted successfully into a
numerically ordered permutation. -/
theorem sorted_order_homogeneous_witness :
    ∃ l, sorted_sentence_ids ["10", "2", "1"] = some l ∧ l.Perm ["10", "2", "1"] ∧
      l.Pairwise (fun a b => strToNat a ≤ strToNat b) :=
  (sorted_order_homogeneous.1 ["10", "2", "1"]).1 (by decide)

/-- savedIds past a saved visit. -/
theorem savedIds_cons_saved (s : String) (t : List (String × Outcome)) :
    savedIds ((s, Outcome.saved) :: t) = s :: savedIds t := by
  simp [savedIds]

/-- savedIds past a visit with any other outcome. -/
theorem savedIds_cons_other (s : String) (o : Outcome) (ho : o ≠ Outcome.saved)
    (t : List (String × Outcome)) :
    savedIds ((s, o) :: t) = savedIds t := by
  simp [savedIds, ho]

/-- An indexed element below the cut is in the prefix. -/
theorem getElem?_mem_take {α : Type} :
    ∀ (t : List α) (i j : Nat) (e : α), i < j → t[i]? = some e → e ∈ t.take j := by
  intro t
  induction t with
  | nil => intro i j e _ he; rw [List.getElem?_nil] at he; exact absurd he (by simp)
  | cons a t ih =>
    intro i j e hij he
    cases j with
    | zero => exact absurd hij (by omega)
    | succ j =>
      rw [List.take_succ_cons]
      cases i with
      | zero =>
        rw [List.getElem?_cons_zero] at he
        rw [Option.some.inj he]
        simp
      | succ i =>
        rw [List.getElem?_cons_succ] at he
        exact List.mem_cons.mpr (Or.inr (ih i j e (by omega) he))

/-- One visited sentence is skipped exactly when its identifier is in the
start-of-run scan or among the identifiers saved earlier in the run. -/
theorem recordingLoop_skip_iff (acts : Nat → OpAction) :
    ∀ (ids already : List String) (n k : Nat) (e : String × Outcome),
      (recordingLoop acts already ids n)[k]? = some e →
      (e.2 = Outcome.skippedDone ↔
        e.1 ∈ already ∨ e.1 ∈ savedIds ((recordingLoop acts already ids n).take k)) := by
  intro ids
  induction ids with
  | nil =>
    intro already n k e he
    rw [show recordingLoop acts already [] n = [] from rfl, List.getElem?_nil] at he
    exact absurd he (by simp)
  | cons sid rest ih =>
    intro already n k e he
    by_cases hmem : sid ∈ already
    · have hstep : recordingLoop acts already (sid :: rest) n
          = (sid, Outcome.skippedDone) :: recordingLoop acts already rest n := by
        conv_lhs => unfold recordingLoop
        rw [if_pos hmem]
      rw [hstep] at he ⊢
      cases k with
      | zero =>
        rw [List.getElem?_cons_zero] at he
        obtain rfl := (Option.some.inj he).symm
        simp [savedIds, hmem]
      | succ k =>
        rw [List.getElem?_cons_succ] at he
        rw [List.take_succ_cons, savedIds_cons_other sid Outcome.skippedDone (by simp) _]
        exact ih already n k e he
    · cases hact : acts n with
      | quit =>
        have hstep : recordingLoop acts already (sid :: rest) n
            = [(sid, Outcome.quitSession)] := by
          conv_lhs => unfold recordingLoop
          rw [if_neg hmem, hact]
        rw [hstep] at he ⊢
        cases k with
        | zero =>
          rw [List.getElem?_cons_zero] at he
          obtain rfl := (Option.some.inj he).symm
          simp [savedIds, hmem]
        | succ k =>
          rw [List.getElem?_cons_succ, List.getElem?_nil] at he
          exact absurd he (by simp)
      | record chunks ok =>
        cases chunks with
        | zero =>
          have hstep : recordingLoop acts already (sid :: rest) n
              = (sid, Outcome.emptyCapture) :: recordingLoop acts already rest (n + 1) := by
            conv_lhs => unfold recordingLoop
            rw [if_neg hmem, hact]
          rw [hstep] at he ⊢
          cases k with
          | zero =>
            rw [List.getElem?_cons_zero] at he
            obtain rfl := (Option.some.inj he).symm
            simp [savedIds, hmem]
          | succ k =>
            rw [List.getElem?_cons_succ] at he
            rw [List.take_succ_cons, savedIds_cons_other sid Outcome.emptyCapture (by simp) _]
            exact ih already (n + 1) k e he
        | succ m =>
          cases ok with
          | true =>
            have hstep : recordingLoop acts already (sid :: rest) n
                = (sid, Outcome.saved)
                  :: recordingLoop acts (sid :: already) rest (n + 1) := by
              conv_lhs => unfold recordingLoop
              rw [if_neg hmem, hact]
            rw [hstep] at he ⊢
            cases k with
            | zero =>
              rw [List.getElem?_cons_zero] at he
              obtain rfl := (Option.some.inj he).symm
              simp [savedIds, hmem]
            | succ k =>
              rw [List.getElem?_cons_succ] at he
              rw [List.take_succ_cons, savedIds_cons_saved]
              rw [ih (sid :: already) (n + 1) k e he]
              simp only [List.mem_cons]
              tauto
          | false =>
            have hstep : recordingLoop acts already (sid :: rest) n
                = [(sid, Outcome.saveFailed)] := by
              conv_lhs => unfold recordingLoop
              rw [if_neg hmem, hact]
            rw [hstep] at he ⊢
            cases k with
            | zero =>
              rw [List.getElem?_cons_zero] at he
              obtain rfl := (Option.some.inj he).symm
              simp [savedIds, hmem]
            | succ k =>
              rw [List.getElem?_cons_succ, List.getElem?_nil] at he
              exact absurd he (by simp)

/-- C3: in one run of the shared-accent loop a visited sentence is skipped
exactly when its identifier is in the in-memory completion set at that
moment, and that set is the start-of-run scan plus everything the run has
saved so far; consequently a sentence saved earlier in the run, if visited
again, is skipped rather than presented. -/
theorem shared_accent_skip_iff (already : List String) (acts : Nat → OpAction)
    (ids : List String) (n : Nat) :
    (∀ (k : Nat) (e : String × Outcome),
      (recordingLoop acts already ids n)[k]? = some e →
      (e.2 = Outcome.skippedDone ↔
        e.1 ∈ already ∨ e.1 ∈ savedIds ((recordingLoop acts already ids n).take k)))
    ∧ (∀ (i j : Nat) (ei ej : String × Outcome), i < j →
        (recordingLoop acts already ids n)[i]? = some ei → ei.2 = Outcome.saved →
        (recordingLoop acts already ids n)[j]? = some ej → ej.1 = ei.1 →
        ej.2 = Outcome.skippedDone) := by
  refine ⟨fun k e he => recordingLoop_skip_iff acts ids already n k e he, ?_⟩
  intro i j ei ej hij hi hsv hj hname
  have hmem : ei ∈ (recordingLoop acts already ids n).take j :=
    getElem?_mem_take (recordingLoop acts already ids n) i j ei hij hi
  have hsaved : ei.1 ∈ savedIds ((recordingLoop acts already ids n).take j) := by
    refine List.mem_map.mpr ⟨ei, ?_, rfl⟩
    rw [List.mem_filter]
    exact ⟨hmem, by simp [hsv]⟩
  refine (recordingLoop_skip_iff acts ids already n j ej hj).mpr ?_
  rw [hname]
  exact Or.inr hsaved

/-- Witness for C3: with start-of-run scan containing only "5" and an
operator who always records one block successfully, the second visited
sentence of the worklist 3, 5 is number 5 and it is skipped because it is
in the completion set. -/
theorem shared_accent_skip_iff_witness :
    (Outcome.skippedDone = Outcome.skippedDone ↔
      "5" ∈ (["5"] : List String) ∨
        "5" ∈ savedIds
          ((recordingLoop (fun _ => OpAction.record 1 true) ["5"] ["3", "5"] 0).take 1)) :=
  (shared_accent_skip_iff ["5"] (fun _ => OpAction.record 1 true) ["3", "5"] 0).1 1
    ("5", Outcome.skippedDone) (by decide)

/-- C8: a capture with zero audio blocks is reported as an empty-capture
visit, no file is written for that sentence, its identifier is not added to
the completion set, the recorded count is not incremented, and the loop
continues with the next sentence from the unchanged state. -/
theorem empty_capture_no_effect (already : List String) (acts : Nat → OpAction)
    (sid : String) (rest : List String) (n : Nat) (b : Bool)
    (hmem : sid ∉ already) (hact : acts n = OpAction.record 0 b) :
    recordingLoop acts already (sid :: rest) n
      = (sid, Outcome.emptyCapture) :: recordingLoop acts already rest (n + 1)
    ∧ session_recorded_count (recordingLoop acts already (sid :: rest) n)
        = session_recorded_count (recordingLoop acts already rest (n + 1))
    ∧ savedIds (recordingLoop acts already (sid :: rest) n)
        = savedIds (recordingLoop acts already rest (n + 1)) := by
  have hstep : recordingLoop acts already (sid :: rest) n
      = (sid, Outcome.emptyCapture) :: recordingLoop acts already rest (n + 1) := by
    conv_lhs => unfold recordingLoop
    rw [if_neg hmem, hact]
  refine ⟨hstep, ?_, ?_⟩
  · rw [hstep]
    simp [session_recorded_count]
  · rw [hstep]
    exact savedIds_cons_other sid Outcome.emptyCapture (by simp) _

/-- Witness for C8: a fresh session whose only operator action is an empty
capture of sentence "1". -/
theorem empty_capture_no_effect_witness :
    recordingLoop (fun _ => OpAction.record 0 true) [] ["1"] 0
      = ("1", Outcome.emptyCapture) :: recordingLoop (fun _ => OpAction.record 0 true) [] [] 1
    ∧ session_recorded_count (recordingLoop (fun _ => OpAction.record 0 true) [] ["1"] 0)
        = session_recorded_count (recordingLoop (fun _ => OpAction.record 0 true) [] [] 1)
    ∧ savedIds (recordingLoop (fun _ => OpAction.record 0 true) [] ["1"] 0)
        = savedIds (recordingLoop (fun _ => OpAction.record 0 true) [] [] 1) :=
  empty_capture_no_effect [] (fun _ => OpAction.record 0 true) "1" [] 0 true (by simp) rfl

/-- C9: convert_csv_to_json turns any failure inside its try block (reading
the CSV or writing the JSON) into a False return, but when the output path
has no directory component the directory-creation step, which runs before
the try block, raises FileNotFoundError uncaught; the script's bare
filename "sentences.json" is such a path. -/
theorem convert_raises_on_bare_filename :
    (∀ (path : String) (csvRead : Except String (List (String × String))) (writeOk : Bool),
      pyDirname path = "" →
      convert_csv_to_json path csvRead writeOk = PyResult.raised "FileNotFoundError")
    ∧ (∀ (path : String) (csvRead : Except String (List (String × String))) (writeOk : Bool),
      pyDirname path ≠ "" →
      ∃ b payload, convert_csv_to_json path csvRead writeOk = PyResult.ok (b, payload)
        ∧ (b = true ↔ (∃ rows, csvRead = Except.ok rows) ∧ writeOk = true))
    ∧ pyDirname "sentences.json" = "" := by
  refine ⟨?_, ?_, by decide⟩
  · intro path csvRead writeOk hdir
    unfold convert_csv_to_json os_makedirs
    rw [hdir, if_pos rfl]
  · intro path csvRead writeOk hdir
    unfold convert_csv_to_json os_makedirs
    rw [if_neg hdir]
    cases csvRead with
    | error e =>
      refine ⟨false, none, rfl, ?_⟩
      simp
    | ok rows =>
      cases writeOk with
      | true =>
        refine ⟨true, some (convertRows rows), ?_, ?_⟩
        · simp
        · simp
      | false =>
        refine ⟨false, none, ?_, ?_⟩
        · simp
        · simp

/-- Witness for C9: converting to the bare filename "sentences.json" raises
even though the CSV reads fine and the write would succeed. -/
theorem convert_raises_on_bare_filename_witness :
    convert_csv_to_json "sentences.json" (Except.ok [("1", "text")]) true
      = PyResult.raised "FileNotFoundError" :=
  convert_raises_on_bare_filename.1 "sentences.json" (Except.ok [("1", "text")]) true (by decide)

/-- The converter's row loop, generalised over the accumulator. -/
theorem convertRows_aux :
    ∀ (rows acc : List (String × String)),
      rows.foldl (fun sentences row =>
        if pyStrip row.1 ≠ "" ∧ pyStrip row.2 ≠ "" then
          sentences ++ [(pyStrip row.1, pyStrip row.2)]
        else sentences) acc
      = acc ++ validRows rows := by
  intro rows
  induction rows with
  | nil => intro acc; simp [validRows]
  | cons row rows ih =>
    intro acc
    rw [List.foldl_cons, validRows_cons]
    by_cases hv : pyStrip row.1 ≠ "" ∧ pyStrip row.2 ≠ ""
    · rw [if_pos hv, if_pos hv, ih]
      simp
    · rw [if_neg hv, if_neg hv, ih]

/-- C10: the converter emits one record per row whose stripped fields are
both non-empty, in exactly the CSV row order, with no deduplication and no
sorting; the written manifest is that list; on the duplicated-identifier
example both occurrences of "1" are kept, while the recording script's
loader keeps only the first. -/
theorem convert_preserves_row_order :
    (∀ rows : List (String × String), convertRows rows = validRows rows)
    ∧ (∀ rows : List (String × String),
        convert_csv_to_json "data/sentences.json" (Except.ok rows) true
          = PyResult.ok (true, some (convertRows rows)))
    ∧ convertRows [("1", "a"), ("2", "b"), ("1", "c")]
        = [("1", "a"), ("2", "b"), ("1", "c")]
    ∧ (load_sentences_from_csv [("1", "a"), ("2", "b"), ("1", "c")]).1
        = [("1", "a"), ("2", "b")] := by
  have h1 : ∀ rows : List (String × String), convertRows rows = validRows rows := by
    intro rows
    show rows.foldl (fun sentences row =>
        if pyStrip row.1 ≠ "" ∧ pyStrip row.2 ≠ "" then
          sentences ++ [(pyStrip row.1, pyStrip row.2)]
        else sentences) [] = validRows rows
    rw [convertRows_aux rows []]
    simp
  refine ⟨h1, ?_, by decide, by decide⟩
  intro rows
  have hdir : pyDirname "data/sentences.json" = "data" := by decide
  unfold convert_csv_to_json os_makedirs
  rw [hdir, if_neg (by decide)]
  rfl

end LaoAsr
